import Mathlib

/-!
Shallow embedding of the item-store CRUD layer of `src/app.py`.

The Python store is a process-global list `items_db : List[Item]`; each
handler reads or mutates it.  We embed the store as a `List Item` passed
explicitly: mutating handlers return the new list together with their
result, and fallible handlers (`get_item`, `update_item`, `delete_item`,
which raise a 404 `HTTPException` in Python) return an `Option`, with
`none` standing for the NotFound error.

`price` is a Python float that the store only carries around (no
arithmetic is ever performed on it), so it is embedded as `Rat`: any
carrier with decidable equality gives the same store behaviour.
-/

/-- The pydantic model `Item` (src/app.py lines 33-38). -/
structure Item where
  id : Int
  name : String
  descr : Option String
  price : Rat
  in_stock : Bool
deriving DecidableEq, Repr

/-- The pydantic model `ItemCreate` (src/app.py lines 40-44): the request
body for create and update, after schema validation. -/
structure ItemCreate where
  name : String
  descr : Option String
  price : Rat
  in_stock : Bool
deriving DecidableEq, Repr

/-- Building an `ItemCreate` from a raw request body, mirroring the
pydantic defaults: an omitted `description` parses to `None` and an
omitted `in_stock` parses to `True` (src/app.py lines 42-44). -/
def ItemCreate.ofBody (name : String) (descr : Option String) (price : Rat)
    (in_stock : Option Bool) : ItemCreate :=
  ⟨name, descr, price, in_stock.getD true⟩

/-- The seed store (src/app.py lines 47-51). -/
def items_db : List Item :=
  [⟨1, "Laptop", some "High-performance laptop", 1200, true⟩,
   ⟨2, "Mouse", some "Wireless mouse", 25, true⟩,
   ⟨3, "Keyboard", some "Mechanical keyboard", 80, false⟩]

/-- `GET /items` (src/app.py lines 76-80): returns the whole list. -/
def get_items (db : List Item) : List Item := db

/-- `GET /items/{item_id}` (src/app.py lines 82-90): linear scan, first
item whose id matches; 404 (here `none`) when none matches. -/
def get_item (db : List Item) (item_id : Int) : Option Item :=
  db.find? (fun item => item.id == item_id)

/-- Python's `max([i.id for i in items_db], default=0)` (src/app.py line
96): the maximum id in the store, or `0` for an empty store.  Note the
default applies only to the empty list, exactly as in Python. -/
def maxId (db : List Item) : Int :=
  match db.map (·.id) with
  | [] => 0
  | x :: xs => xs.foldl max x

/-- `POST /items` (src/app.py lines 92-100): assigns
`max(existing ids, default=0) + 1`, appends, returns the new item. -/
def create_item (db : List Item) (item : ItemCreate) : Item × List Item :=
  let new_id := maxId db + 1
  let new_item : Item := ⟨new_id, item.name, item.descr, item.price, item.in_stock⟩
  (new_item, db ++ [new_item])

/-- `PUT /items/{item_id}` (src/app.py lines 102-113): scan for the first
item with matching id, replace it in place by a fresh item built from the
path id and the request body, return the replacement; 404 (`none`) when
no id matches, leaving the store untouched. -/
def update_item (db : List Item) (item_id : Int) (item : ItemCreate) :
    Option (Item × List Item) :=
  match db with
  | [] => none
  | e :: rest =>
    if e.id = item_id then
      let updated : Item := ⟨item_id, item.name, item.descr, item.price, item.in_stock⟩
      some (updated, updated :: rest)
    else
      match update_item rest item_id item with
      | none => none
      | some (u, rest') => some (u, e :: rest')

/-- `DELETE /items/{item_id}` (src/app.py lines 115-125): scan for the
first item with matching id, pop it, return it; 404 (`none`) when no id
matches, leaving the store untouched. -/
def delete_item (db : List Item) (item_id : Int) : Option (Item × List Item) :=
  match db with
  | [] => none
  | e :: rest =>
    if e.id = item_id then
      some (e, rest)
    else
      match delete_item rest item_id with
      | none => none
      | some (d, rest') => some (d, e :: rest')

/-- One client request against the store. -/
inductive Op where
  | list : Op
  | get : Int → Op
  | create : ItemCreate → Op
  | update : Int → ItemCreate → Op
  | delete : Int → Op
deriving DecidableEq, Repr

/-- The store after handling one request: `list` and `get` read only;
`create` appends; `update` and `delete` mutate when the id is found and
leave the store unchanged on a 404. -/
def applyOp (db : List Item) : Op → List Item
  | Op.list => get_items db
  | Op.get _ => db
  | Op.create item => (create_item db item).2
  | Op.update item_id item =>
    match update_item db item_id item with
    | none => db
    | some (_, db') => db'
  | Op.delete item_id =>
    match delete_item db item_id with
    | none => db
    | some (_, db') => db'

/-- The store after handling a sequence of requests. -/
def runOps (db : List Item) : List Op → List Item
  | [] => db
  | op :: ops => runOps (applyOp db op) ops

/-- The ids currently stored, in store order. -/
def ids (db : List Item) : List Int := db.map (·.id)

/-- No delete request for id `i` occurs in the trace. -/
def noDeleteOf (i : Int) (tr : List Op) : Prop := ∀ o ∈ tr, o ≠ Op.delete i

/-- Some create request in the trace, run from store `s`, was assigned id
`i`, and no delete request for `i` follows it. -/
def createdKept (s : List Item) (i : Int) : List Op → Prop
  | [] => False
  | op :: tr =>
    (∃ b, op = Op.create b ∧ i = maxId s + 1 ∧ noDeleteOf i tr) ∨
    createdKept (applyOp s op) i tr

/-! ### Helper lemmas (shared by several claims) -/

lemma foldl_max_le (xs : List Int) : ∀ x : Int, x ≤ xs.foldl max x := by
  induction xs with
  | nil => intro x; exact le_refl x
  | cons y ys ih =>
    intro x
    exact le_trans (le_max_left x y) (ih (max x y))

lemma le_foldl_max_of_mem {a : Int} (xs : List Int) :
    ∀ x : Int, a ∈ xs → a ≤ xs.foldl max x := by
  induction xs with
  | nil => intro x h; cases h
  | cons y ys ih =>
    intro x h
    rcases List.mem_cons.mp h with rfl | h
    · exact le_trans (le_max_right x a) (foldl_max_le ys (max x a))
    · exact ih (max x y) h

lemma le_maxId_of_mem {a : Int} {db : List Item} (h : a ∈ ids db) : a ≤ maxId db := by
  cases hm : db.map (·.id) with
  | nil => rw [ids, hm] at h; cases h
  | cons x xs =>
    rw [ids, hm] at h
    rw [maxId, hm]
    rcases List.mem_cons.mp h with rfl | h
    · exact foldl_max_le xs a
    · exact le_foldl_max_of_mem xs x h

lemma maxId_succ_not_mem (db : List Item) : maxId db + 1 ∉ ids db := by
  intro h
  have := le_maxId_of_mem h
  omega

lemma ids_create (db : List Item) (b : ItemCreate) :
    ids (create_item db b).2 = ids db ++ [maxId db + 1] := by
  simp [create_item, ids]

lemma get_item_eq_none_iff (db : List Item) (i : Int) :
    get_item db i = none ↔ ∀ it ∈ db, it.id ≠ i := by
  simp [get_item, List.find?_eq_none]

lemma get_item_isSome_iff (db : List Item) (i : Int) :
    (get_item db i).isSome ↔ i ∈ ids db := by
  simp [get_item, List.find?_isSome, ids]

lemma update_item_eq_none_iff (db : List Item) (i : Int) (b : ItemCreate) :
    update_item db i b = none ↔ ∀ it ∈ db, it.id ≠ i := by
  induction db with
  | nil => simp [update_item]
  | cons e rest ih =>
    by_cases he : e.id = i
    · simp [update_item, he]
    · rw [update_item]
      simp only [if_neg he]
      cases hu : update_item rest i b with
      | none =>
        simp only [List.forall_mem_cons]
        exact ⟨fun _ => ⟨he, ih.mp hu⟩, fun _ => trivial⟩
      | some p =>
        obtain ⟨u, rest'⟩ := p
        simp only [List.forall_mem_cons]
        constructor
        · intro hcontra; cases hcontra
        · intro hall
          rw [ih.mpr hall.2] at hu
          cases hu

lemma delete_item_eq_none_iff (db : List Item) (i : Int) :
    delete_item db i = none ↔ ∀ it ∈ db, it.id ≠ i := by
  induction db with
  | nil => simp [delete_item]
  | cons e rest ih =>
    by_cases he : e.id = i
    · simp [delete_item, he]
    · rw [delete_item]
      simp only [if_neg he]
      cases hd : delete_item rest i with
      | none =>
        simp only [List.forall_mem_cons]
        exact ⟨fun _ => ⟨he, ih.mp hd⟩, fun _ => trivial⟩
      | some p =>
        obtain ⟨d', rest'⟩ := p
        simp only [List.forall_mem_cons]
        constructor
        · intro hcontra; cases hcontra
        · intro hall
          rw [ih.mpr hall.2] at hd
          cases hd

lemma update_item_some_decomp {db db' : List Item} {i : Int} {b : ItemCreate} {u : Item}
    (h : update_item db i b = some (u, db')) :
    u = ⟨i, b.name, b.descr, b.price, b.in_stock⟩ ∧
    ∃ l1 old l2, db = l1 ++ old :: l2 ∧ (∀ x ∈ l1, x.id ≠ i) ∧ old.id = i ∧
      db' = l1 ++ u :: l2 := by
  induction db generalizing db' with
  | nil => cases h
  | cons e rest ih =>
    rw [update_item] at h
    by_cases he : e.id = i
    · rw [if_pos he] at h
      injection h with h
      injection h with h1 h2
      subst h1; subst h2
      exact ⟨rfl, [], e, rest, rfl, by simp, he, rfl⟩
    · rw [if_neg he] at h
      cases hu : update_item rest i b with
      | none => rw [hu] at h; cases h
      | some p =>
        obtain ⟨u', rest'⟩ := p
        rw [hu] at h
        injection h with h
        injection h with h1 h2
        subst h1; subst h2
        obtain ⟨hval, l1, old, l2, hdb, hl1, hold, hdb'⟩ := ih hu
        exact ⟨hval, e :: l1, old, l2, by rw [hdb]; rfl,
          by simpa [List.forall_mem_cons] using ⟨he, hl1⟩, hold, by rw [hdb']; rfl⟩

lemma delete_item_some_decomp {db db' : List Item} {i : Int} {d : Item}
    (h : delete_item db i = some (d, db')) :
    ∃ l1 l2, db = l1 ++ d :: l2 ∧ (∀ x ∈ l1, x.id ≠ i) ∧ d.id = i ∧ db' = l1 ++ l2 := by
  induction db generalizing db' with
  | nil => cases h
  | cons e rest ih =>
    rw [delete_item] at h
    by_cases he : e.id = i
    · rw [if_pos he] at h
      injection h with h
      injection h with h1 h2
      subst h1; subst h2
      exact ⟨[], rest, rfl, by simp, he, rfl⟩
    · rw [if_neg he] at h
      cases hd : delete_item rest i with
      | none => rw [hd] at h; cases h
      | some p =>
        obtain ⟨d', rest'⟩ := p
        rw [hd] at h
        injection h with h
        injection h with h1 h2
        subst h1; subst h2
        obtain ⟨l1, l2, hdb, hl1, hid, hdb'⟩ := ih hd
        exact ⟨e :: l1, l2, by rw [hdb]; rfl,
          by simpa [List.forall_mem_cons] using ⟨he, hl1⟩, hid, by rw [hdb']; rfl⟩

lemma ids_update {db : List Item} {i : Int} {b : ItemCreate} {p : Item × List Item}
    (h : update_item db i b = some p) : ids p.2 = ids db := by
  obtain ⟨u, db'⟩ := p
  obtain ⟨hval, l1, old, l2, hdb, _, hold, hdb'⟩ := update_item_some_decomp h
  subst hdb; subst hdb'
  simp [ids, hval, hold]

lemma ids_delete_sublist {db db' : List Item} {i : Int} {d : Item}
    (h : delete_item db i = some (d, db')) : List.Sublist (ids db') (ids db) := by
  obtain ⟨l1, l2, hdb, _, _, hdb'⟩ := delete_item_some_decomp h
  subst hdb; subst hdb'
  exact ((List.sublist_cons_self d l2).append_left l1).map _

lemma nodup_ids_applyOp {db : List Item} (h : (ids db).Nodup) (op : Op) :
    (ids (applyOp db op)).Nodup := by
  cases op with
  | list => exact h
  | get i => exact h
  | create b =>
    have hc : ids (applyOp db (Op.create b)) = ids db ++ [maxId db + 1] := ids_create db b
    rw [hc]
    simp [List.nodup_append, h, maxId_succ_not_mem db]
  | update i b =>
    show (ids (match update_item db i b with
      | none => db
      | some (_, db') => db')).Nodup
    cases hu : update_item db i b with
    | none => exact h
    | some p =>
      obtain ⟨u, db'⟩ := p
      have := ids_update hu
      simp only at this
      rw [this]
      exact h
  | delete i =>
    show (ids (match delete_item db i with
      | none => db
      | some (_, db') => db')).Nodup
    cases hd : delete_item db i with
    | none => exact h
    | some p =>
      obtain ⟨d, db'⟩ := p
      exact (ids_delete_sublist hd).nodup h

lemma nodup_ids_runOps {db : List Item} (h : (ids db).Nodup) (ops : List Op) :
    (ids (runOps db ops)).Nodup := by
  induction ops generalizing db with
  | nil => exact h
  | cons op ops ih => exact ih (nodup_ids_applyOp h op)

lemma not_mem_ids_delete_self {db db' : List Item} {i : Int} {d : Item}
    (hnd : (ids db).Nodup) (h : delete_item db i = some (d, db')) : i ∉ ids db' := by
  obtain ⟨l1, l2, hdb, hl1, hid, hdb'⟩ := delete_item_some_decomp h
  subst hdb; subst hdb'
  simp only [ids, List.map_append, List.map_cons] at hnd ⊢
  intro hmem
  rcases List.mem_append.mp hmem with h1 | h2
  · obtain ⟨x, hx, hxid⟩ := List.mem_map.mp h1
    exact hl1 x hx hxid
  · have hnotin : d.id ∉ l2.map (·.id) :=
      (List.nodup_cons.mp (List.nodup_append.mp hnd).2.1).1
    rw [hid] at hnotin
    exact hnotin h2

lemma mem_ids_delete_other {db db' : List Item} {t i : Int} {d : Item}
    (h : delete_item db t = some (d, db')) (hne : i ≠ t) :
    i ∈ ids db' ↔ i ∈ ids db := by
  obtain ⟨l1, l2, hdb, _, hid, hdb'⟩ := delete_item_some_decomp h
  subst hdb; subst hdb'
  subst hid
  simp only [ids, List.map_append, List.map_cons, List.mem_append, List.mem_cons]
  constructor
  · tauto
  · rintro (h1 | h2 | h3)
    · exact Or.inl h1
    · exact absurd h2 hne
    · exact Or.inr h3

lemma find?_append_of_none {p : Item → Bool} {l1 l2 : List Item}
    (h : l1.find? p = none) : (l1 ++ l2).find? p = l2.find? p := by
  induction l1 with
  | nil => rfl
  | cons e rest ih =>
    cases hp : p e with
    | false =>
      simp only [List.cons_append, List.find?_cons, hp] at h ⊢
      exact ih h
    | true =>
      simp only [List.find?_cons, hp] at h
      cases h

/-! ### Claims -/

/-- C1: For every store state, Create(fields) assigns the new item the id
`max(existing ids, default 0) + 1`, sets `in_stock` to true when it is
unspecified in the request body, appends the new item at the end of the
ordered sequence, and returns that new item; creating into an empty store
yields id 1. -/
theorem C1_create_assigns_max_succ (db : List Item) (name : String)
    (descr : Option String) (price : Rat) (stock : Option Bool) :
    (create_item db (ItemCreate.ofBody name descr price stock)).1.id = maxId db + 1 ∧
    (create_item db (ItemCreate.ofBody name descr price stock)).1 =
      ⟨maxId db + 1, name, descr, price, stock.getD true⟩ ∧
    (create_item db (ItemCreate.ofBody name descr price none)).1.in_stock = true ∧
    (create_item db (ItemCreate.ofBody name descr price stock)).2 =
      db ++ [(create_item db (ItemCreate.ofBody name descr price stock)).1] ∧
    (create_item [] (ItemCreate.ofBody name descr price stock)).1.id = 1 :=
  ⟨rfl, rfl, rfl, rfl, by show maxId [] + 1 = 1; decide⟩

/-- C2: Id uniqueness is an invariant: starting from the three-item seed
state, after every sequence of List/Get/Create/Update/Delete operations no
two items in the store share an id. -/
theorem C2_ids_nodup (ops : List Op) : (ids (runOps items_db ops)).Nodup :=
  nodup_ids_runOps (by decide) ops

/-- C9: List and Get never mutate the store, for every store state and
every id, including ids with no matching item. -/
theorem C9_list_get_pure (db : List Item) (i : Int) :
    applyOp db Op.list = db ∧ applyOp db (Op.get i) = db ∧ get_items db = db :=
  ⟨rfl, rfl, rfl⟩

/-- C7: Round-trip: for every store state and fields value, Create
followed by Get on the returned id succeeds and yields exactly the created
item, which is the supplied fields plus the assigned id. -/
theorem C7_create_get_roundtrip (db : List Item) (b : ItemCreate) :
    get_item (create_item db b).2 (create_item db b).1.id = some (create_item db b).1 ∧
    (create_item db b).1 = ⟨maxId db + 1, b.name, b.descr, b.price, b.in_stock⟩ := by
  refine ⟨?_, rfl⟩
  show List.find? (fun item => item.id == maxId db + 1)
    (db ++ [(create_item db b).1]) = some (create_item db b).1
  rw [find?_append_of_none]
  · simp [create_item]
  · have : get_item db (maxId db + 1) = none :=
      (get_item_eq_none_iff db (maxId db + 1)).mpr (fun it hit => by
        have hle : it.id ≤ maxId db :=
          le_maxId_of_mem (show it.id ∈ ids db from List.mem_map_of_mem _ hit)
        omega)
    exact this

/-- C3: Get, Update and Delete signal NotFound (here `none`) exactly when
no stored item has the requested id; on NotFound the store is left
unchanged; and after a successful Delete of an id a second Delete of the
same id fails with NotFound. -/
theorem C3_notfound_iff (db : List Item) (i : Int) (b : ItemCreate)
    (hnd : (ids db).Nodup) :
    (get_item db i = none ↔ ∀ it ∈ db, it.id ≠ i) ∧
    (update_item db i b = none ↔ ∀ it ∈ db, it.id ≠ i) ∧
    (delete_item db i = none ↔ ∀ it ∈ db, it.id ≠ i) ∧
    applyOp db (Op.get i) = db ∧
    (update_item db i b = none → applyOp db (Op.update i b) = db) ∧
    (delete_item db i = none → applyOp db (Op.delete i) = db) ∧
    (∀ d db', delete_item db i = some (d, db') → delete_item db' i = none) := by
  refine ⟨get_item_eq_none_iff db i, update_item_eq_none_iff db i b,
    delete_item_eq_none_iff db i, rfl, ?_, ?_, ?_⟩
  · intro h
    show (match update_item db i b with | none => db | some (_, db') => db') = db
    rw [h]
  · intro h
    show (match delete_item db i with | none => db | some (_, db') => db') = db
    rw [h]
  · intro d db' hdel
    refine (delete_item_eq_none_iff db' i).mpr ?_
    intro it hit hid
    exact not_mem_ids_delete_self hnd hdel (hid ▸ List.mem_map_of_mem _ hit)

/-- C3 witness: the theorem applied to the seed store, id 3 and a sample
body, hypotheses discharged concretely. -/
theorem C3_notfound_iff_witness :
    (ids items_db).Nodup ∧
    ((get_item items_db 3 = none ↔ ∀ it ∈ items_db, it.id ≠ 3) ∧
     (update_item items_db 3 ⟨"X", none, 1, true⟩ = none ↔ ∀ it ∈ items_db, it.id ≠ 3) ∧
     (delete_item items_db 3 = none ↔ ∀ it ∈ items_db, it.id ≠ 3) ∧
     applyOp items_db (Op.get 3) = items_db ∧
     (update_item items_db 3 ⟨"X", none, 1, true⟩ = none →
       applyOp items_db (Op.update 3 ⟨"X", none, 1, true⟩) = items_db) ∧
     (delete_item items_db 3 = none → applyOp items_db (Op.delete 3) = items_db) ∧
     (∀ d db', delete_item items_db 3 = some (d, db') → delete_item db' 3 = none)) :=
  ⟨by decide, C3_notfound_iff items_db 3 ⟨"X", none, 1, true⟩ (by decide)⟩

lemma update_item_stable {db db' : List Item} {u : Item} {i : Int} {b : ItemCreate}
    (h : update_item db i b = some (u, db')) : update_item db' i b = some (u, db') := by
  induction db generalizing db' with
  | nil => cases h
  | cons e rest ih =>
    rw [update_item] at h
    by_cases he : e.id = i
    · rw [if_pos he] at h
      injection h with h
      injection h with h1 h2
      subst h1; subst h2
      simp [update_item]
    · rw [if_neg he] at h
      cases hu : update_item rest i b with
      | none => rw [hu] at h; cases h
      | some p =>
        obtain ⟨u0, rest'⟩ := p
        rw [hu] at h
        injection h with h
        injection h with h1 h2
        subst h1; subst h2
        rw [update_item, if_neg he, ih hu]

/-- C10: Update is idempotent: on a store containing the given id,
applying the same Update twice in succession succeeds both times, leaves
the store in the same state and returns the same item as applying it
once. -/
theorem C10_update_idempotent (db : List Item) (i : Int) (b : ItemCreate)
    (h : ∃ it ∈ db, it.id = i) :
    ∃ u db', update_item db i b = some (u, db') ∧ update_item db' i b = some (u, db') := by
  cases hu : update_item db i b with
  | none =>
    obtain ⟨it, hit, hid⟩ := h
    exact absurd hid ((update_item_eq_none_iff db i b).mp hu it hit)
  | some p =>
    obtain ⟨u, db'⟩ := p
    exact ⟨u, db', rfl, update_item_stable hu⟩

/-- C10 witness: idempotence of Update applied concretely to id 2 of the
seed store. -/
theorem C10_update_idempotent_witness :
    (∃ it ∈ items_db, it.id = 2) ∧
    ∃ u db', update_item items_db 2 ⟨"X", none, 1, true⟩ = some (u, db') ∧
      update_item db' 2 ⟨"X", none, 1, true⟩ = some (u, db') :=
  ⟨by decide, C10_update_idempotent items_db 2 ⟨"X", none, 1, true⟩ (by decide)⟩

/-- C4: On a store containing the given id, Update replaces the item with
that id in place, at the same position in the ordered sequence, by the
item built from the path id and exactly the supplied fields (full
replacement, no merge: an omitted description is stored absent, an
omitted in_stock is stored true), and returns that replacement. -/
theorem C4_update_full_replacement (db : List Item) (i : Int) (name : String)
    (descr : Option String) (price : Rat) (stock : Option Bool)
    (h : ∃ it ∈ db, it.id = i) :
    ∃ l1 old l2,
      db = l1 ++ old :: l2 ∧ (∀ x ∈ l1, x.id ≠ i) ∧ old.id = i ∧
      update_item db i (ItemCreate.ofBody name descr price stock) =
        some (⟨i, name, descr, price, stock.getD true⟩,
          l1 ++ ⟨i, name, descr, price, stock.getD true⟩ :: l2) := by
  cases hu : update_item db i (ItemCreate.ofBody name descr price stock) with
  | none =>
    obtain ⟨it, hit, hid⟩ := h
    exact absurd hid
      ((update_item_eq_none_iff db i (ItemCreate.ofBody name descr price stock)).mp hu it hit)
  | some p =>
    obtain ⟨u, db'⟩ := p
    obtain ⟨hval, l1, old, l2, hdb, hl1, hold, hdb'⟩ := update_item_some_decomp hu
    subst hval
    refine ⟨l1, old, l2, hdb, hl1, hold, ?_⟩
    rw [hdb']
    rfl

/-- C4 witness: full replacement applied concretely to id 2 of the seed
store with description and in_stock omitted from the body. -/
theorem C4_update_full_replacement_witness :
    (∃ it ∈ items_db, it.id = 2) ∧
    ∃ l1 old l2,
      items_db = l1 ++ old :: l2 ∧ (∀ x ∈ l1, x.id ≠ 2) ∧ old.id = 2 ∧
      update_item items_db 2 (ItemCreate.ofBody "N" none 7 none) =
        some (⟨2, "N", none, 7, true⟩, l1 ++ ⟨2, "N", none, 7, true⟩ :: l2) :=
  ⟨by decide, C4_update_full_replacement items_db 2 "N" none 7 none (by decide)⟩

/-- C5 counterexample: deleting the max-id item 3 ("Keyboard") from the
seed store and then creating assigns id 3 again, an id previously held by
a since-deleted item — so ids ARE reused after deletion. -/
theorem C5_counterexample :
    delete_item items_db 3 =
      some (⟨3, "Keyboard", some "Mechanical keyboard", 80, false⟩,
        [⟨1, "Laptop", some "High-performance laptop", 1200, true⟩,
         ⟨2, "Mouse", some "Wireless mouse", 25, true⟩]) ∧
    (create_item (runOps items_db [Op.delete 3])
      (ItemCreate.ofBody "Monitor" none 350 none)).1.id = 3 := by decide

/-- C5 amended: Create always assigns an id strictly greater than every
id currently in the store (so it never collides with a live item), but an
id previously held by a deleted item can be reassigned. -/
theorem C5_amended_create_fresh (db : List Item) (b : ItemCreate) (it : Item)
    (h : it ∈ db) :
    it.id < (create_item db b).1.id ∧ (create_item db b).1.id ∉ ids db := by
  have hle : it.id ≤ maxId db :=
    le_maxId_of_mem (show it.id ∈ ids db from List.mem_map_of_mem _ h)
  refine ⟨?_, maxId_succ_not_mem db⟩
  show it.id < maxId db + 1
  omega

/-- C5 witness: freshness of the created id over the seed store, applied
to the seed item with id 1. -/
theorem C5_amended_create_fresh_witness :
    (⟨1, "Laptop", some "High-performance laptop", 1200, true⟩ : Item) ∈ items_db ∧
    ((⟨1, "Laptop", some "High-performance laptop", 1200, true⟩ : Item).id <
       (create_item items_db ⟨"X", none, 1, true⟩).1.id ∧
     (create_item items_db ⟨"X", none, 1, true⟩).1.id ∉ ids items_db) :=
  ⟨by decide, C5_amended_create_fresh items_db ⟨"X", none, 1, true⟩
    ⟨1, "Laptop", some "High-performance laptop", 1200, true⟩ (by decide)⟩

/-- C8 counterexample: the store accepts the empty text as a name: Create
with name `""` stores and returns an item whose name is empty, and Update
likewise overwrites item 1's name with the empty text. -/
theorem C8_counterexample :
    (create_item items_db (ItemCreate.ofBody "" none 10 none)).1.name = "" ∧
    (create_item items_db (ItemCreate.ofBody "" none 10 none)).1 ∈
      (create_item items_db (ItemCreate.ofBody "" none 10 none)).2 ∧
    update_item items_db 1 (ItemCreate.ofBody "" none 10 none) =
      some (⟨1, "", none, 10, true⟩,
        [⟨1, "", none, 10, true⟩,
         ⟨2, "Mouse", some "Wireless mouse", 25, true⟩,
         ⟨3, "Keyboard", some "Mechanical keyboard", 80, false⟩]) := by decide

/-- C8 amended: the store does not validate names at all: Create and
Update store the supplied name verbatim (the empty text included), and the
created item is kept in the store. -/
theorem C8_amended_no_name_validation (db : List Item) (i : Int) (b : ItemCreate) :
    (create_item db b).1.name = b.name ∧
    (create_item db b).1 ∈ (create_item db b).2 ∧
    (∀ u db', update_item db i b = some (u, db') → u.name = b.name) := by
  refine ⟨rfl, ?_, ?_⟩
  · show (create_item db b).1 ∈ db ++ [(create_item db b).1]
    exact List.mem_append_right _ (List.mem_singleton_self _)
  · intro u db' hu
    rw [(update_item_some_decomp hu).1]

/-! ### Trace characterization of Get (claim C6) -/

lemma ids_applyOp_update (s : List Item) (u : Int) (b : ItemCreate) :
    ids (applyOp s (Op.update u b)) = ids s := by
  show ids (match update_item s u b with | none => s | some (_, db') => db') = ids s
  cases hu : update_item s u b with
  | none => rfl
  | some p =>
    obtain ⟨x, s'⟩ := p
    exact ids_update hu

lemma not_mem_ids_applyOp_delete {s : List Item} (hnd : (ids s).Nodup) (i : Int) :
    i ∉ ids (applyOp s (Op.delete i)) := by
  show i ∉ ids (match delete_item s i with | none => s | some (_, db') => db')
  cases hd : delete_item s i with
  | none =>
    intro hmem
    simp only [ids] at hmem
    obtain ⟨x, hx, hxid⟩ := List.mem_map.mp hmem
    exact (delete_item_eq_none_iff s i).mp hd x hx hxid
  | some p =>
    obtain ⟨d, s'⟩ := p
    exact not_mem_ids_delete_self hnd hd

lemma mem_ids_applyOp_delete_other {s : List Item} {t i : Int} (hne : i ≠ t) :
    i ∈ ids (applyOp s (Op.delete t)) ↔ i ∈ ids s := by
  show i ∈ ids (match delete_item s t with | none => s | some (_, db') => db') ↔ i ∈ ids s
  cases hd : delete_item s t with
  | none => exact Iff.rfl
  | some p =>
    obtain ⟨d, s'⟩ := p
    exact mem_ids_delete_other hd hne

lemma mem_ids_runOps_iff (tr : List Op) :
    ∀ s : List Item, (ids s).Nodup → ∀ i : Int,
      (i ∈ ids (runOps s tr) ↔ createdKept s i tr ∨ (i ∈ ids s ∧ noDeleteOf i tr)) := by
  induction tr with
  | nil =>
    intro s hnd i
    simp [runOps, createdKept, noDeleteOf]
  | cons op tr ih =>
    intro s hnd i
    have IH := ih (applyOp s op) (nodup_ids_applyOp hnd op) i
    show i ∈ ids (runOps (applyOp s op) tr) ↔ _
    rw [IH]
    cases op with
    | list =>
      simp only [createdKept, noDeleteOf, List.forall_mem_cons]
      simp [noDeleteOf, applyOp, get_items]
    | get j =>
      simp only [createdKept, noDeleteOf, List.forall_mem_cons]
      simp [noDeleteOf, applyOp]
    | create b =>
      rw [show ids (applyOp s (Op.create b)) = ids s ++ [maxId s + 1] from ids_create s b]
      simp only [createdKept, List.mem_append, List.mem_singleton, Op.create.injEq,
        exists_eq_left', noDeleteOf, List.forall_mem_cons]
      constructor
      · rintro (hck | ⟨hA | hB, hN⟩)
        · exact Or.inl (Or.inr hck)
        · exact Or.inr ⟨hA, by simp, hN⟩
        · exact Or.inl (Or.inl ⟨hB, hN⟩)
      · rintro ((⟨hB, hN⟩ | hck) | ⟨hA, _, hN⟩)
        · exact Or.inr ⟨Or.inr hB, hN⟩
        · exact Or.inl hck
        · exact Or.inr ⟨Or.inl hA, hN⟩
    | update u b =>
      rw [ids_applyOp_update s u b]
      simp only [createdKept, noDeleteOf, List.forall_mem_cons]
      constructor
      · rintro (hck | ⟨hA, hN⟩)
        · exact Or.inl (Or.inr hck)
        · exact Or.inr ⟨hA, by simp, hN⟩
      · rintro ((⟨b', hb', _⟩ | hck) | ⟨hA, _, hN⟩)
        · cases hb'
        · exact Or.inl hck
        · exact Or.inr ⟨hA, hN⟩
    | delete d =>
      by_cases hdi : i = d
      · subst hdi
        have hnm : i ∉ ids (applyOp s (Op.delete i)) := not_mem_ids_applyOp_delete hnd i
        simp only [createdKept, noDeleteOf, List.forall_mem_cons]
        constructor
        · rintro (hck | ⟨hA, hN⟩)
          · exact Or.inl (Or.inr hck)
          · exact absurd hA hnm
        · rintro ((⟨b', hb', _⟩ | hck) | ⟨_, hhd, _⟩)
          · cases hb'
          · exact Or.inl hck
          · exact absurd rfl hhd
      · have hmem : i ∈ ids (applyOp s (Op.delete d)) ↔ i ∈ ids s :=
          mem_ids_applyOp_delete_other hdi
        rw [hmem]
        simp only [createdKept, noDeleteOf, List.forall_mem_cons]
        constructor
        · rintro (hck | ⟨hA, hN⟩)
          · exact Or.inl (Or.inr hck)
          · exact Or.inr ⟨hA, by simp [Op.delete.injEq]; omega, hN⟩
        · rintro ((⟨b', hb', _⟩ | hck) | ⟨hA, _, hN⟩)
          · cases hb'
          · exact Or.inl hck
          · exact Or.inr ⟨hA, hN⟩

/-- C6 counterexample: the claim's "iff" fails already at the empty trace
from the seed store: Get(1) returns an item although no previous Create
produced id 1 (item 1 is a seed item). -/
theorem C6_counterexample :
    (get_item (runOps items_db []) 1).isSome = true ∧
    ¬ createdKept items_db 1 [] :=
  ⟨by decide, fun h => h⟩

/-- C6 amended: Get(id) on the store reached from the seed by a trace
returns an item iff either some previous Create in the trace produced that
id and no later Delete targeted it, or the id is a seed id and no Delete
in the trace targeted it; moreover Update never changes the stored ids. -/
theorem C6_get_characterization (tr : List Op) (i : Int) :
    ((get_item (runOps items_db tr) i).isSome ↔
      createdKept items_db i tr ∨ (i ∈ ids items_db ∧ noDeleteOf i tr)) ∧
    (∀ u b, ids (applyOp (runOps items_db tr) (Op.update u b)) =
      ids (runOps items_db tr)) := by
  constructor
  · rw [get_item_isSome_iff]
    exact mem_ids_runOps_iff tr items_db (by decide) i
  · intro u b
    exact ids_applyOp_update _ u b

